import Mathlib

/-!
Verification of the Suvarna Prompt client (React/TypeScript) against its
natural-language specification.

The development shallowly embeds the functions of the program itself:

* `createBlob` (src/App.tsx) — the PCM encoder for live audio capture,
  including the manual byte-by-byte binary string construction and the
  `btoa` base64 step, which is modelled by an executable base64
  encoder/decoder pair over byte lists;
* the live-session `onmessage` transcription handler (src/App.tsx);
* `cleanupAudio` and the failure path of `startRecording` (src/App.tsx);
* `handleConvert`, `addToHistory`, `handleDeleteHistoryItem` and the
  history persistence effects (src/App.tsx), with the platform
  `JSON.stringify` / `JSON.parse` pair modelled by an executable JSON
  codec for the history data shape;
* `sendChatMessage` (services) and `handleSend` (src/components/ChatBot.tsx);
* `handleEnhance` (GoldenCard component).

JavaScript numbers are modelled as `ℚ` (audio samples) and `ℕ`/`ℤ`
(integers); fallible operations return `Option`/`Except`; browser side
effects (alerts, console logging, the localStorage map) are threaded as
explicit state.
-/

/-! ## Base64 (model of the browser `btoa` on byte strings)

`createBlob` builds a binary string whose character codes are the bytes of
the `Int16Array` buffer and feeds it to `btoa`.  We model this as a base64
encoder on `List ℕ` (bytes), together with a decoder used to state the
losslessness claim. -/

/-- The 64-character standard base64 alphabet used by `btoa`. -/
def b64Alphabet : List Char :=
  "ABCDEFGHIJKLMNOPQRSTUVWXYZabcdefghijklmnopqrstuvwxyz0123456789+/".data

/-- Character for a 6-bit group. -/
def b64Char (n : ℕ) : Char := b64Alphabet.getD n 'A'

/-- Value of a base64 alphabet character (index in the alphabet). -/
def b64Val (c : Char) : ℕ := b64Alphabet.indexOf c

/-- Base64-encode a byte list, 3 bytes to 4 characters, with `=` padding,
exactly as `btoa` renders a binary string. -/
def b64encodeList : List ℕ → List Char
  | [] => []
  | [b0] => [b64Char (b0 / 4), b64Char (b0 % 4 * 16), '=', '=']
  | [b0, b1] =>
      [b64Char (b0 / 4), b64Char (b0 % 4 * 16 + b1 / 16), b64Char (b1 % 16 * 4), '=']
  | b0 :: b1 :: b2 :: rest =>
      b64Char (b0 / 4) :: b64Char (b0 % 4 * 16 + b1 / 16) ::
      b64Char (b1 % 16 * 4 + b2 / 64) :: b64Char (b2 % 64) :: b64encodeList rest

/-- Base64-decode (model of `atob` on well-formed input): 4 characters to
3 bytes, with `=` padding cutting the final group short. -/
def b64decodeList : List Char → List ℕ
  | c0 :: c1 :: c2 :: c3 :: rest =>
      if c2 = '=' then [b64Val c0 * 4 + b64Val c1 / 16]
      else if c3 = '=' then
        [b64Val c0 * 4 + b64Val c1 / 16, b64Val c1 % 16 * 16 + b64Val c2 / 4]
      else
        (b64Val c0 * 4 + b64Val c1 / 16) ::
        (b64Val c1 % 16 * 16 + b64Val c2 / 4) ::
        (b64Val c2 % 4 * 64 + b64Val c3) :: b64decodeList rest
  | _ => []

lemma b64Val_b64Char : ∀ n < 64, b64Val (b64Char n) = n := by decide

lemma b64Char_ne_pad : ∀ n < 64, b64Char n ≠ '=' := by decide

/-- Round-trip of the base64 model on byte lists. -/
lemma b64decode_encode (l : List ℕ) (hl : ∀ b ∈ l, b < 256) :
    b64decodeList (b64encodeList l) = l := by
  induction l using b64encodeList.induct with
  | case1 => rfl
  | case2 b0 =>
      have h0 : b0 < 256 := hl b0 (by simp)
      simp only [b64encodeList, b64decodeList]
      rw [if_pos trivial]
      rw [b64Val_b64Char _ (by omega), b64Val_b64Char _ (by omega)]
      simp only [List.cons.injEq, and_true]
      omega
  | case3 b0 b1 =>
      have h0 : b0 < 256 := hl b0 (by simp)
      have h1 : b1 < 256 := hl b1 (by simp)
      simp only [b64encodeList, b64decodeList]
      rw [if_neg (b64Char_ne_pad _ (by omega)), if_pos trivial]
      rw [b64Val_b64Char _ (by omega), b64Val_b64Char _ (by omega),
        b64Val_b64Char _ (by omega)]
      simp only [List.cons.injEq, and_true]
      omega
  | case4 b0 b1 b2 rest ih =>
      have h0 : b0 < 256 := hl b0 (by simp)
      have h1 : b1 < 256 := hl b1 (by simp)
      have h2 : b2 < 256 := hl b2 (by simp)
      have hrest : ∀ b ∈ rest, b < 256 := fun b hb => hl b (by simp [hb])
      simp only [b64encodeList, b64decodeList]
      rw [if_neg (b64Char_ne_pad _ (by omega)), if_neg (b64Char_ne_pad _ (by omega))]
      rw [b64Val_b64Char _ (by omega), b64Val_b64Char _ (by omega),
        b64Val_b64Char _ (by omega), b64Val_b64Char _ (by omega)]
      rw [ih hrest]
      simp only [List.cons.injEq, and_true]
      omega

/-! ## PCM encoder (`createBlob`, src/App.tsx lines 74–95)

Audio samples are modelled as rationals.  The JavaScript assignment
`int16[i] = Math.max(-1, Math.min(1, data[i])) * 32767` performs a ToInt16
conversion: truncation toward zero followed by wrapping into
[-32768, 32767].  Reading the `Int16Array` buffer through a `Uint8Array`
yields the twos-complement bytes of each element, low byte first
(little-endian). -/

/-- Truncation toward zero of a rational (the ToInt16 rounding step). -/
def ratTrunc (x : ℚ) : ℤ := if 0 ≤ x then ⌊x⌋ else ⌈x⌉

/-- Wrap an integer into the 16-bit twos-complement range
[-32768, 32767] (the ToInt16 wrapping step). -/
def toInt16 (n : ℤ) : ℤ := (n + 32768) % 65536 - 32768

/-- The per-sample conversion of `createBlob`:
`int16[i] = Math.max(-1, Math.min(1, data[i])) * 32767`. -/
def sampleToInt16 (x : ℚ) : ℤ := toInt16 (ratTrunc (max (-1) (min 1 x) * 32767))

/-- The two bytes of an `Int16Array` element as seen through a
`Uint8Array` view of its buffer: twos-complement, low byte first. -/
def int16ToBytes (v : ℤ) : List ℕ :=
  [(v % 65536).toNat % 256, (v % 65536).toNat / 256]

/-- Byte sequence of the `Uint8Array` view over the whole `Int16Array`. -/
def pcmBytes (data : List ℚ) : List ℕ :=
  (data.map sampleToInt16).flatMap int16ToBytes

/-- Return type of `createBlob` (the `@google/genai` `Blob` shape). -/
structure GeminiBlob where
  data : String
  mimeType : String
deriving DecidableEq, Repr

/-- `createBlob` (src/App.tsx): convert the float frame to 16-bit PCM,
view the buffer as bytes, build the binary string character by character
and base64-encode it with `btoa`, tagging the mime type. -/
def createBlob (data : List ℚ) : GeminiBlob :=
  { data := String.mk (b64encodeList (pcmBytes data)),
    mimeType := "audio/pcm;rate=16000" }

lemma int16ToBytes_lt (v : ℤ) : ∀ b ∈ int16ToBytes v, b < 256 := by
  intro b hb
  have h65536 : (v % 65536).toNat < 65536 := by
    have h1 : 0 ≤ v % 65536 := Int.emod_nonneg v (by norm_num)
    have h2 : v % 65536 < 65536 := Int.emod_lt_of_pos v (by norm_num)
    omega
  simp only [int16ToBytes, List.mem_cons, List.mem_singleton, List.not_mem_nil,
    or_false] at hb
  rcases hb with h | h <;> omega

lemma pcmBytes_lt (data : List ℚ) : ∀ b ∈ pcmBytes data, b < 256 := by
  intro b hb
  simp only [pcmBytes, List.mem_flatMap, List.mem_map] at hb
  obtain ⟨bs, ⟨x, _, hx⟩, hbbs⟩ := hb
  exact int16ToBytes_lt _ b (hx ▸ hbbs)

lemma pcmBytes_length (data : List ℚ) : (pcmBytes data).length = 2 * data.length := by
  unfold pcmBytes
  induction data with
  | nil => rfl
  | cons x xs ih =>
      simp only [List.map_cons, List.flatMap_cons, List.length_append, ih,
        List.length_cons]
      simp [int16ToBytes]
      omega

/-- Helper: the truncated scaled sample of a clamped value stays within
[-32767, 32767]. -/
lemma ratTrunc_clamped_bounds (x : ℚ) :
    -32767 ≤ ratTrunc (max (-1) (min 1 x) * 32767) ∧
      ratTrunc (max (-1) (min 1 x) * 32767) ≤ 32767 := by
  set y : ℚ := max (-1) (min 1 x) with hy
  have hylb : (-1 : ℚ) ≤ y := le_max_left _ _
  have hyub : y ≤ 1 := by
    rw [hy]
    exact max_le (by norm_num) (min_le_left _ _)
  have hlb : (-32767 : ℚ) ≤ y * 32767 := by nlinarith
  have hub : y * 32767 ≤ 32767 := by nlinarith
  unfold ratTrunc
  split
  · rename_i hpos
    constructor
    · have : (0 : ℤ) ≤ ⌊y * 32767⌋ := by
        apply Int.le_floor.mpr
        push_cast
        assumption
      omega
    · have h1 : ⌊y * 32767⌋ ≤ ⌊(32767 : ℚ)⌋ := Int.floor_le_floor hub
      have h2 : ⌊(32767 : ℚ)⌋ = 32767 := by norm_num
      omega
  · rename_i hneg
    constructor
    · have h1 : ⌈(-32767 : ℚ)⌉ ≤ ⌈y * 32767⌉ := Int.ceil_le_ceil hlb
      have h2 : ⌈(-32767 : ℚ)⌉ = -32767 := by rw [show ((-32767 : ℚ)) = ((-32767 : ℤ) : ℚ) by norm_num, Int.ceil_intCast]
      omega
    · have : ⌈y * 32767⌉ ≤ (0 : ℤ) := by
        apply Int.ceil_le.mpr
        push_cast
        linarith
      omega

/-- C1: for every audio frame of length N, `createBlob` produces a chunk
whose base64 `data` decodes to exactly the 2N PCM bytes (base64 is
lossless on them), and the chunk is tagged `audio/pcm;rate=16000`. -/
theorem C1_createBlob_base64_roundtrip (data : List ℚ) :
    b64decodeList (createBlob data).data.data = pcmBytes data ∧
    (pcmBytes data).length = 2 * data.length ∧
    (createBlob data).mimeType = "audio/pcm;rate=16000" := by
  refine ⟨?_, pcmBytes_length data, rfl⟩
  show b64decodeList (b64encodeList (pcmBytes data)) = pcmBytes data
  exact b64decode_encode _ (pcmBytes_lt data)

/-- C2: every sample, including out-of-range ones, is clamped to
[-1, 1] before scaling by 32767 and truncating; the stored 16-bit value
equals the truncation result unwrapped (no overflow or wraparound), lies
in [-32767, 32767], and is packed as two bytes, least-significant first
(little-endian). -/
theorem C2_sample_clamped_no_overflow (x : ℚ) :
    sampleToInt16 x = ratTrunc (max (-1) (min 1 x) * 32767) ∧
    -32767 ≤ sampleToInt16 x ∧ sampleToInt16 x ≤ 32767 ∧
    ((int16ToBytes (sampleToInt16 x)).getD 0 0 : ℤ) +
        256 * ((int16ToBytes (sampleToInt16 x)).getD 1 0 : ℤ) =
      sampleToInt16 x % 65536 ∧
    (int16ToBytes (sampleToInt16 x)).length = 2 := by
  obtain ⟨hlb, hub⟩ := ratTrunc_clamped_bounds x
  set t : ℤ := ratTrunc (max (-1) (min 1 x) * 32767) with ht
  have hwrap : sampleToInt16 x = t := by
    show toInt16 t = t
    unfold toInt16
    have h1 : 0 ≤ t + 32768 := by omega
    have h2 : t + 32768 < 65536 := by omega
    rw [Int.emod_eq_of_lt h1 h2]
    omega
  refine ⟨hwrap, by omega, by omega, ?_, rfl⟩
  have hm1 : 0 ≤ sampleToInt16 x % 65536 := Int.emod_nonneg _ (by norm_num)
  have hm2 : sampleToInt16 x % 65536 < 65536 := Int.emod_lt_of_pos _ (by norm_num)
  simp only [int16ToBytes, List.getD_cons_zero, List.getD_cons_succ]
  omega

/-! ## Transcript accumulator (live-session `onmessage`, src/App.tsx 119–130)

The handler reads `message.serverContent?.inputTranscription`, and when it
is present appends the (truthy) `text` to the input buffer via
`setInputText(prev => prev + text)`.  Optional fields are `Option`s; the
JavaScript truthiness test `if (text)` skips both a missing and an empty
string. -/

/-- The `inputTranscription` payload: its `text` field may be absent. -/
structure InputTranscription where
  text : Option String
deriving DecidableEq, Repr

/-- The `serverContent` payload of a live server message. -/
structure ServerContent where
  inputTranscription : Option InputTranscription
deriving DecidableEq, Repr

/-- A live server message as consumed by the handler. -/
structure LiveServerMessage where
  serverContent : Option ServerContent
deriving DecidableEq, Repr

/-- Effect of the `onmessage` callback on the input buffer. -/
def applyLiveMessage (buf : String) (m : LiveServerMessage) : String :=
  match m.serverContent with
  | some sc =>
      match sc.inputTranscription with
      | some it =>
          match it.text with
          | some t => if t = "" then buf else buf ++ t
          | none => buf
      | none => buf
  | none => buf

/-- A transcript-fragment message carrying `t`. -/
def fragmentMessage (t : String) : LiveServerMessage :=
  { serverContent := some { inputTranscription := some { text := some t } } }

/-- Concatenation f1 ++ f2 ++ … ++ fn of a fragment list. -/
def concatFragments : List String → String
  | [] => ""
  | f :: fs => f ++ concatFragments fs

/-- C3: delivering fragments f1, …, fn in order to the message handler
leaves the input buffer equal to the old buffer followed by the
concatenation f1 ++ … ++ fn; in particular zero fragments leave it
unchanged. -/
theorem C3_fragments_concatenate (buf : String) (fs : List String) :
    (fs.map fragmentMessage).foldl applyLiveMessage buf =
      buf ++ concatFragments fs := by
  induction fs generalizing buf with
  | nil => simp [concatFragments]
  | cons f fs ih =>
      simp only [List.map_cons, List.foldl_cons, concatFragments]
      have happ : applyLiveMessage buf (fragmentMessage f) = buf ++ f := by
        by_cases hf : f = ""
        · subst hf
          simp [applyLiveMessage, fragmentMessage, String.append_empty]
        · simp [applyLiveMessage, fragmentMessage, hf]
      rw [happ, ih, String.append_assoc]

/-! ## Audio teardown (`cleanupAudio`, src/App.tsx 163–180)

The four resource refs (`processorRef`, `sourceRef`, `streamRef`,
`audioContextRef`) are modelled as `Option Unit`.  Each block
`if (ref.current) { ref.current.release(); ref.current = null; }` calls an
external browser release function (`disconnect`, `track.stop`, `close`);
whether such a call throws is environment behaviour, so it is a boolean
parameter per resource.  A thrown exception propagates out of
`cleanupAudio` (the source has no try/catch), before `ref.current` is
cleared. -/

/-- The four audio resource refs held by the recording pipeline. -/
structure AudioRefs where
  processor : Option Unit
  source : Option Unit
  stream : Option Unit
  audioContext : Option Unit
deriving DecidableEq, Repr

/-- Which of the four external release calls throw when invoked. -/
structure ReleaseBehavior where
  processorThrows : Bool
  sourceThrows : Bool
  streamThrows : Bool
  audioContextThrows : Bool
deriving DecidableEq, Repr

/-- One guarded release block: skipped when the ref is already null;
otherwise the release call either throws (ref left set) or succeeds
(ref cleared).  Returns the ref value and whether an exception escaped. -/
def releaseStep (throws : Bool) (r : Option Unit) : Option Unit × Bool :=
  match r with
  | some _ => if throws then (some (), true) else (none, false)
  | none => (none, false)

/-- `cleanupAudio` (src/App.tsx): the four release blocks in source order
(processor, source, stream, audio context); an exception in one block
aborts the remaining blocks.  Returns the refs afterwards and whether an
exception escaped. -/
def cleanupAudio (b : ReleaseBehavior) (s : AudioRefs) : AudioRefs × Bool :=
  let (p, e1) := releaseStep b.processorThrows s.processor
  if e1 then ({ s with processor := p }, true)
  else
    let (src, e2) := releaseStep b.sourceThrows s.source
    if e2 then ({ s with processor := p, source := src }, true)
    else
      let (st, e3) := releaseStep b.streamThrows s.stream
      if e3 then ({ s with processor := p, source := src, stream := st }, true)
      else
        let (c, e4) := releaseStep b.audioContextThrows s.audioContext
        ({ s with processor := p, source := src, stream := st, audioContext := c }, e4)

/-- Browser release calls that do not throw. -/
def noThrow : ReleaseBehavior :=
  { processorThrows := false, sourceThrows := false, streamThrows := false,
    audioContextThrows := false }

/-- Helper: with non-throwing release calls, `cleanupAudio` releases all
four resources and reports no exception, from any starting state. -/
lemma cleanupAudio_noThrow (s : AudioRefs) :
    cleanupAudio noThrow s = (⟨none, none, none, none⟩, false) := by
  obtain ⟨p, src, st, c⟩ := s
  cases p <;> cases src <;> cases st <;> cases c <;> rfl

/-- C4 fails as stated: if the very first release call (the processing
disconnect call of the processing connection) throws, teardown stops there — the source
node, the media stream and the audio context all remain held.  Concrete
input: all four refs held, only the processor release throwing. -/
theorem C4_counterexample_throw_skips_releases :
    (cleanupAudio
        { processorThrows := true, sourceThrows := false, streamThrows := false,
          audioContextThrows := false }
        ⟨some (), some (), some (), some ()⟩).2 = true ∧
    (cleanupAudio
        { processorThrows := true, sourceThrows := false, streamThrows := false,
          audioContextThrows := false }
        ⟨some (), some (), some (), some ()⟩).1 =
      ⟨some (), some (), some (), some ()⟩ := by
  exact ⟨rfl, rfl⟩

/-- C4 amended: when no individual release call throws, `cleanupAudio`
releases all four resources from any state, and a second call changes
nothing (idempotence).  The source has no exception handling, so the
unconditional-progress part of the claim holds only in the non-throwing
case. -/
theorem C4_cleanupAudio_releases_all_idempotent (s : AudioRefs) :
    cleanupAudio noThrow s = (⟨none, none, none, none⟩, false) ∧
    cleanupAudio noThrow (cleanupAudio noThrow s).1 =
      ((cleanupAudio noThrow s).1, false) := by
  refine ⟨cleanupAudio_noThrow s, ?_⟩
  rw [cleanupAudio_noThrow s]
  exact cleanupAudio_noThrow _

/-! ## Recording start failure path (`startRecording`, src/App.tsx 97–161)

`startRecording` sets the recording flag, then acquires, in order: the
microphone stream (`getUserMedia`), the audio context, the stream source
node, and the script processor node, storing each in its ref as it goes.
A throw at any of these steps lands in the catch block, which shows one
alert, clears the recording flag, and runs `cleanupAudio`.  The browser
release calls on the failure path are the non-throwing ones. -/

/-- The acquisition step at which the failure occurs. -/
inductive AcquireFailure
  | getUserMedia
  | newAudioContext
  | createMediaStreamSource
  | createScriptProcessor
deriving DecidableEq, Repr

/-- Observable recording state: the `isRecording` flag, the four resource
refs, and the number of alerts shown to the user. -/
structure RecState where
  isRecording : Bool
  refs : AudioRefs
  alerts : ℕ
deriving DecidableEq, Repr

/-- Refs assigned before the failing step throws (each acquisition stores
its resource into its ref immediately). -/
def refsBeforeFailure (fp : AcquireFailure) (r : AudioRefs) : AudioRefs :=
  match fp with
  | .getUserMedia => r
  | .newAudioContext => { r with stream := some () }
  | .createMediaStreamSource => { r with stream := some (), audioContext := some () }
  | .createScriptProcessor =>
      { r with stream := some (), audioContext := some (), source := some () }

/-- The catch block of `startRecording`: `alert(...)`,
`setIsRecording(false)`, `cleanupAudio()`. -/
def startRecordingCatch (st : RecState) : RecState :=
  { isRecording := false,
    refs := (cleanupAudio noThrow st.refs).1,
    alerts := st.alerts + 1 }

/-- `startRecording` when acquisition fails at step `fp`: the try block
sets the flag and stores the refs acquired so far, then the throw lands
in the catch block. -/
def startRecordingFail (fp : AcquireFailure) (st : RecState) : RecState :=
  startRecordingCatch
    { st with isRecording := true, refs := refsBeforeFailure fp st.refs }

/-- C5: every acquisition failure (whichever step throws) ends with the
recording flag false, all four refs released, and exactly one new alert
shown; it never leaves the recording flag true. -/
theorem C5_acquisition_failure_cleans_up (fp : AcquireFailure) (st : RecState) :
    (startRecordingFail fp st).isRecording = false ∧
    (startRecordingFail fp st).refs = ⟨none, none, none, none⟩ ∧
    (startRecordingFail fp st).alerts = st.alerts + 1 := by
  refine ⟨rfl, ?_, rfl⟩
  show (cleanupAudio noThrow _).1 = _
  rw [cleanupAudio_noThrow]

/-! ## Conversion and history (`handleConvert`, `addToHistory`,
`handleDeleteHistoryItem`, src/App.tsx 198–256)

`generateGoldenPrompt` never throws: it returns `{ data, sources, error? }`
with `data: null` and an error message on any failure.  `handleConvert`
returns early on blank input, otherwise sets the loading state, and on
`error || !data` stores the error without touching history; on success it
stores the result and prepends a history entry built by `addToHistory`
from `Date.now()`. -/

/-- The four-field structured conversion result (types.ts). -/
structure GoldenResult where
  originalTranslation : String
  goldenPrompt : String
  category : String
  reasoning : String
deriving DecidableEq, Repr

/-- A web-grounding citation (types.ts). -/
structure GroundingSource where
  uri : String
  title : String
deriving DecidableEq, Repr

/-- A persisted conversion record (types.ts). -/
structure HistoryItem where
  id : String
  originalInput : String
  result : GoldenResult
  timestamp : ℕ
deriving DecidableEq, Repr

/-- The conversion UI state (types.ts `ConversionState`). -/
structure ConversionState where
  isLoading : Bool
  result : Option GoldenResult
  error : Option String
  sources : List GroundingSource
deriving DecidableEq, Repr

/-- Tools passed to the conversion request. -/
inductive GenTool
  | googleSearch
deriving DecidableEq, Repr

/-- `const tools = useGrounding ? [{ googleSearch: {} }] : []` in
`generateGoldenPrompt` (services/geminiService.ts). -/
def toolsFor (useGrounding : Bool) : List GenTool :=
  if useGrounding then [.googleSearch] else []

/-- The value `generateGoldenPrompt` resolves with:
`{ data, sources, error? }`. -/
structure GenResponse where
  data : Option GoldenResult
  sources : List GroundingSource
  error : Option String
deriving DecidableEq, Repr

/-- App-level state touched by `handleConvert`. -/
structure AppState where
  inputText : String
  conversionState : ConversionState
  history : List HistoryItem
deriving DecidableEq, Repr

/-- `addToHistory` (src/App.tsx): builds an item from `Date.now()` (as id
string and timestamp) and prepends it. -/
def addToHistory (now : ℕ) (originalInput : String) (result : GoldenResult)
    (history : List HistoryItem) : List HistoryItem :=
  { id := toString now, originalInput := originalInput, result := result,
    timestamp := now } :: history

/-- Model of the JavaScript `String.prototype.trim`: drop leading and
trailing whitespace (kernel-evaluable, unlike the bundled `String.trim`
whose auxiliaries do not reduce). -/
def jsTrim (s : String) : String :=
  String.mk
    (((s.data.dropWhile Char.isWhitespace).reverse.dropWhile
        Char.isWhitespace).reverse)

/-- `handleConvert` (src/App.tsx), with the awaited `generateGoldenPrompt`
value passed in as `resp` and `Date.now()` as `now`. -/
def handleConvert (now : ℕ) (resp : GenResponse) (st : AppState) : AppState :=
  if jsTrim st.inputText = "" then st
  else
    let cs1 : ConversionState :=
      { st.conversionState with isLoading := true, error := none }
    if resp.error.isSome ∨ resp.data = none then
      { st with conversionState :=
          { cs1 with
              isLoading := false,
              error := some (resp.error.getD "Failed to generate.") } }
    else
      match resp.data with
      | some d =>
          { st with
            conversionState :=
              { isLoading := false, result := some d, error := none,
                sources := resp.sources },
            history := addToHistory now st.inputText d st.history }
      | none => st

/-- C6: with grounding disabled the conversion call carries no grounding
tools; on success `handleConvert` prepends a history entry holding
exactly the original input and the returned four-field result; on
failure (error or null data) history is untouched and the error string is
stored for display. -/
theorem C6_convert_grounding_history_error (now : ℕ) (st : AppState)
    (resp : GenResponse) (hne : jsTrim st.inputText ≠ "") :
    toolsFor false = [] ∧
    (resp.error = none → resp.data.isSome →
      (handleConvert now resp st).history =
        { id := toString now, originalInput := st.inputText,
          result := resp.data.getD ⟨"", "", "", ""⟩,
          timestamp := now } :: st.history ∧
      (handleConvert now resp st).conversionState =
        { isLoading := false, result := resp.data, error := none,
          sources := resp.sources }) ∧
    (resp.error.isSome ∨ resp.data = none →
      (handleConvert now resp st).history = st.history ∧
      (handleConvert now resp st).conversionState.error =
        some (resp.error.getD "Failed to generate.") ∧
      (handleConvert now resp st).conversionState.isLoading = false) := by
  refine ⟨rfl, ?_, ?_⟩
  · intro herr hdata
    obtain ⟨d, hd⟩ := Option.isSome_iff_exists.mp hdata
    unfold handleConvert
    rw [if_neg hne, if_neg (by simp [herr, hd]), hd]
    simp [addToHistory, hd]
  · intro hfail
    unfold handleConvert
    rw [if_neg hne, if_pos hfail]
    simp

/-- C6 witness: the end-to-end scenario of the spec at a concrete success
response and a concrete failure response is obtained by applying the
theorem at explicit inputs. -/
theorem C6_convert_grounding_history_error_witness :
    let st : AppState :=
      { inputText := "Oka pilla akasamlo egurutundi",
        conversionState :=
          { isLoading := false, result := none, error := none, sources := [] },
        history := [] }
    let resp : GenResponse :=
      { data := some ⟨"A bird flies in the sky", "golden", "Image Generation", "r"⟩,
        sources := [], error := none }
    (jsTrim "Oka pilla akasamlo egurutundi" ≠ "") ∧
    (toolsFor false = [] ∧
      (resp.error = none → resp.data.isSome →
        (handleConvert 7 resp st).history =
          { id := toString 7, originalInput := st.inputText,
            result := resp.data.getD ⟨"", "", "", ""⟩,
            timestamp := 7 } :: st.history ∧
        (handleConvert 7 resp st).conversionState =
          { isLoading := false, result := resp.data, error := none,
            sources := resp.sources }) ∧
      (resp.error.isSome ∨ resp.data = none →
        (handleConvert 7 resp st).history = st.history ∧
        (handleConvert 7 resp st).conversionState.error =
          some (resp.error.getD "Failed to generate.") ∧
        (handleConvert 7 resp st).conversionState.isLoading = false)) :=
  ⟨by decide, C6_convert_grounding_history_error 7 _ _ (by decide)⟩

/-- `handleDeleteHistoryItem` (src/App.tsx):
`setHistory(prev => prev.filter(item => item.id !== id))`. -/
def handleDeleteHistoryItem (i : String) (history : List HistoryItem) :
    List HistoryItem :=
  history.filter (fun item => item.id ≠ i)

/-- C7: deleting by id keeps the surviving entries in their original
relative order (the result is a sublist), removes every entry carrying
the deleted id, and preserves each other entry unchanged — an item whose
id differs occurs exactly as often afterwards as before. -/
theorem C7_delete_by_id_exact (history : List HistoryItem) (i : String)
    (x : HistoryItem) (hx : x.id ≠ i) :
    (handleDeleteHistoryItem i history).Sublist history ∧
    (handleDeleteHistoryItem i history).countP (fun item => item.id = i) = 0 ∧
    (handleDeleteHistoryItem i history).count x = history.count x := by
  refine ⟨List.filter_sublist _, ?_, ?_⟩
  · rw [List.countP_eq_zero]
    intro a ha
    have := List.of_mem_filter ha
    simp only [decide_eq_true_eq] at this ⊢
    exact this
  · exact List.count_filter (by simp [hx])

/-- C7 witness: deleting id "2" from a concrete three-item history. -/
theorem C7_delete_by_id_exact_witness :
    let g : GoldenResult := ⟨"t", "g", "c", "r"⟩
    let h : List HistoryItem :=
      [⟨"1", "a", g, 10⟩, ⟨"2", "b", g, 20⟩, ⟨"3", "c", g, 30⟩]
    (("1" : String) ≠ "2") ∧
    ((handleDeleteHistoryItem "2" h).Sublist h ∧
      (handleDeleteHistoryItem "2" h).countP (fun item => item.id = "2") = 0 ∧
      (handleDeleteHistoryItem "2" h).count ⟨"1", "a", ⟨"t", "g", "c", "r"⟩, 10⟩ =
        h.count ⟨"1", "a", ⟨"t", "g", "c", "r"⟩, 10⟩) :=
  ⟨by decide, C7_delete_by_id_exact _ "2" _ (by decide)⟩

/-! ## History persistence (src/App.tsx 43–56)

Every history mutation rewrites the full collection:
`localStorage.setItem` under the key `suvarna-history` with
`JSON.stringify(history)`; on
initialization the app reads the key and `JSON.parse`s it (keeping the
empty history on absence or parse failure).  `JSON.stringify` /
`JSON.parse` are platform builtins; they are modelled here by an
executable JSON codec specialized to the history data shape: strings
with standard escaping (`\"`, `\\`, `\u00XX` for control characters),
decimal integers, and objects/arrays in the field order `stringify`
emits.  `localStorage` is a key-to-string map. -/

/-- Lowercase hex digit character. -/
def hexDigitChar (n : ℕ) : Char := "0123456789abcdef".data.getD n '0'

/-- JSON escape of one character: `"` and `\` get a backslash escape,
control characters become `\u00XX`, everything else is literal. -/
def escChar (c : Char) : List Char :=
  if c = '"' then ['\\', '"']
  else if c = '\\' then ['\\', '\\']
  else if c.toNat < 32 then
    ['\\', 'u', '0', '0', hexDigitChar (c.toNat / 16), hexDigitChar (c.toNat % 16)]
  else [c]

/-- JSON string literal: quote, escaped body, quote. -/
def encString (s : String) : List Char :=
  '"' :: (s.data.flatMap escChar ++ ['"'])

/-- Hex digit value, accepting both cases. -/
def hexVal (c : Char) : Option ℕ :=
  if '0' ≤ c ∧ c ≤ '9' then some (c.toNat - 48)
  else if 'a' ≤ c ∧ c ≤ 'f' then some (c.toNat - 87)
  else if 'A' ≤ c ∧ c ≤ 'F' then some (c.toNat - 55)
  else none

/-- Parse the body of a JSON string up to the closing quote, returning the
decoded characters and the unconsumed tail. -/
def parseStrBody : List Char → Option (List Char × List Char)
  | [] => none
  | c :: rest =>
    if c = '"' then some ([], rest)
    else if c = '\\' then
      match rest with
      | [] => none
      | e :: rest2 =>
        if e = '"' then
          (fun p => ('"' :: p.1, p.2)) <$> parseStrBody rest2
        else if e = '\\' then
          (fun p => ('\\' :: p.1, p.2)) <$> parseStrBody rest2
        else if e = 'u' then
          match rest2 with
          | h1 :: h2 :: h3 :: h4 :: rest3 =>
            match hexVal h1, hexVal h2, hexVal h3, hexVal h4 with
            | some a, some b, some c2, some d =>
                (fun p => (Char.ofNat (4096 * a + 256 * b + 16 * c2 + d) :: p.1, p.2))
                  <$> parseStrBody rest3
            | _, _, _, _ => none
          | _ => none
        else none
    else (fun p => (c :: p.1, p.2)) <$> parseStrBody rest

/-- Parse a JSON string literal. -/
def parseJString (l : List Char) : Option (String × List Char) :=
  match l with
  | c :: rest =>
      if c = '"' then (fun p => (String.mk p.1, p.2)) <$> parseStrBody rest
      else none
  | [] => none

lemma hexVal_hexDigitChar : ∀ n < 16, hexVal (hexDigitChar n) = some n := by decide

lemma parseStrBody_quote (rest : List Char) :
    parseStrBody ('"' :: rest) = some ([], rest) := by
  rw [parseStrBody.eq_def]; simp

lemma parseStrBody_escQuote (rest : List Char) :
    parseStrBody ('\\' :: '"' :: rest) =
      (fun p => (('"' : Char) :: p.1, p.2)) <$> parseStrBody rest := by
  rw [parseStrBody.eq_def]; simp

lemma parseStrBody_escBackslash (rest : List Char) :
    parseStrBody ('\\' :: '\\' :: rest) =
      (fun p => (('\\' : Char) :: p.1, p.2)) <$> parseStrBody rest := by
  rw [parseStrBody.eq_def]; simp

lemma parseStrBody_escU (h1 h2 h3 h4 : Char) (rest : List Char)
    (a b c d : ℕ) (ha : hexVal h1 = some a) (hb : hexVal h2 = some b)
    (hc : hexVal h3 = some c) (hd : hexVal h4 = some d) :
    parseStrBody ('\\' :: 'u' :: h1 :: h2 :: h3 :: h4 :: rest) =
      (fun p => (Char.ofNat (4096 * a + 256 * b + 16 * c + d) :: p.1, p.2))
        <$> parseStrBody rest := by
  rw [parseStrBody.eq_def]
  simp [ha, hb, hc, hd]

lemma parseStrBody_lit (c : Char) (hq : c ≠ '"') (hbs : c ≠ '\\')
    (rest : List Char) :
    parseStrBody (c :: rest) =
      (fun p => (c :: p.1, p.2)) <$> parseStrBody rest := by
  rw [parseStrBody.eq_def]
  simp [hq, hbs]

/-- String-body round-trip: parsing the escaped characters followed by the
closing quote recovers the characters and the tail. -/
lemma parseStrBody_enc (cs : List Char) (rest : List Char) :
    parseStrBody (cs.flatMap escChar ++ '"' :: rest) = some (cs, rest) := by
  induction cs with
  | nil => simpa using parseStrBody_quote rest
  | cons c cs ih =>
      simp only [List.flatMap_cons, List.append_assoc]
      by_cases hq : c = '"'
      · subst hq
        simp only [escChar, if_pos rfl, if_true, List.cons_append,
          List.nil_append]
        rw [parseStrBody_escQuote, ih]
        rfl
      · by_cases hbs : c = '\\'
        · subst hbs
          have hne : ¬('\\' : Char) = '"' := by decide
          simp only [escChar, if_neg hne, if_pos rfl, if_true,
            List.cons_append, List.nil_append]
          rw [parseStrBody_escBackslash, ih]
          rfl
        · by_cases hctl : c.toNat < 32
          · simp only [escChar, if_neg hq, if_neg hbs, if_pos hctl,
              List.cons_append, List.nil_append]
            rw [parseStrBody_escU '0' '0' (hexDigitChar (c.toNat / 16))
                (hexDigitChar (c.toNat % 16)) _ 0 0 (c.toNat / 16) (c.toNat % 16)
                (by decide) (by decide)
                (hexVal_hexDigitChar _ (by omega))
                (hexVal_hexDigitChar _ (by omega)), ih]
            have hcof : Char.ofNat (16 * (c.toNat / 16) + c.toNat % 16) = c := by
              rw [show 16 * (c.toNat / 16) + c.toNat % 16 = c.toNat from by omega]
              exact Char.ofNat_toNat c
            simp [hcof]
          · simp only [escChar, if_neg hq, if_neg hbs, if_neg hctl,
              List.cons_append, List.nil_append]
            rw [parseStrBody_lit c hq hbs, ih]
            rfl

/-- String-literal round-trip. -/
lemma parseJString_enc (s : String) (rest : List Char) :
    parseJString (encString s ++ rest) = some (s, rest) := by
  simp only [encString, List.cons_append, List.append_assoc, List.cons_append,
    List.nil_append, parseJString, if_pos rfl]
  rw [parseStrBody_enc]
  cases s
  rfl

/-- Decimal digits of a natural number, most significant first (how
`JSON.stringify` renders the integer timestamps). -/
def natDigits (n : ℕ) : List Char :=
  if n < 10 then [hexDigitChar n]
  else natDigits (n / 10) ++ [hexDigitChar (n % 10)]
decreasing_by exact Nat.div_lt_self (by omega) (by omega)

/-- Is this an ASCII decimal digit? -/
def isDigitChar (c : Char) : Bool := decide ('0' ≤ c ∧ c ≤ '9')

/-- Consume leading decimal digits, folding them onto `acc`. -/
def parseNatAux : ℕ → List Char → ℕ × List Char
  | acc, [] => (acc, [])
  | acc, c :: rest =>
      if isDigitChar c then parseNatAux (10 * acc + (c.toNat - 48)) rest
      else (acc, c :: rest)

/-- Parse a JSON integer (at least one leading digit required). -/
def parseJNat (l : List Char) : Option (ℕ × List Char) :=
  match l with
  | c :: _ => if isDigitChar c then some (parseNatAux 0 l) else none
  | [] => none

/-- Number of decimal digits (same recursion as `natDigits`). -/
def numDigits (n : ℕ) : ℕ :=
  if n < 10 then 1 else numDigits (n / 10) + 1
decreasing_by exact Nat.div_lt_self (by omega) (by omega)

lemma digit_facts : ∀ n < 10, isDigitChar (hexDigitChar n) = true ∧
    (hexDigitChar n).toNat - 48 = n := by decide

lemma natDigits_all_digits (n : ℕ) :
    natDigits n ≠ [] ∧ ∀ c ∈ natDigits n, isDigitChar c = true := by
  induction n using natDigits.induct with
  | case1 n h =>
      rw [natDigits, if_pos h]
      exact ⟨by simp, by
        intro c hc
        simp only [List.mem_singleton] at hc
        subst hc
        exact (digit_facts n h).1⟩
  | case2 n h ih =>
      rw [natDigits, if_neg h]
      refine ⟨by simp [ih.1], ?_⟩
      intro c hc
      rcases List.mem_append.mp hc with h1 | h1
      · exact ih.2 c h1
      · simp only [List.mem_singleton] at h1
        subst h1
        exact (digit_facts _ (Nat.mod_lt _ (by omega))).1

lemma parseNatAux_natDigits (n : ℕ) :
    ∀ acc rest, parseNatAux acc (natDigits n ++ rest) =
      parseNatAux (acc * 10 ^ numDigits n + n) rest := by
  induction n using natDigits.induct with
  | case1 n h =>
      intro acc rest
      rw [natDigits, if_pos h, numDigits, if_pos h]
      simp only [List.cons_append, List.nil_append, parseNatAux,
        (digit_facts n h).1, if_true, (digit_facts n h).2, List.append_eq]
      ring_nf
  | case2 n h ih =>
      intro acc rest
      rw [natDigits, if_neg h, numDigits, if_neg h]
      rw [List.append_assoc, List.cons_append, List.nil_append]
      rw [ih acc (hexDigitChar (n % 10) :: rest)]
      have hd := digit_facts (n % 10) (Nat.mod_lt _ (by omega))
      simp only [parseNatAux, hd.1, if_true, hd.2]
      have : 10 * (acc * 10 ^ numDigits (n / 10) + n / 10) + n % 10 =
          acc * 10 ^ (numDigits (n / 10) + 1) + n := by
        rw [pow_succ]
        have := Nat.div_add_mod n 10
        ring_nf
        omega
      rw [this]

/-- Integer round-trip: parsing the rendered digits, followed by a
non-digit, recovers the number and the tail. -/
lemma parseJNat_natDigits (n : ℕ) (rest : List Char)
    (hrest : ∀ c cs, rest = c :: cs → isDigitChar c = false) :
    parseJNat (natDigits n ++ rest) = some (n, rest) := by
  obtain ⟨hne, hall⟩ := natDigits_all_digits n
  obtain ⟨c0, cs0, hcons⟩ : ∃ c0 cs0, natDigits n = c0 :: cs0 := by
    cases hnd : natDigits n with
    | nil => exact absurd hnd hne
    | cons a b => exact ⟨a, b, rfl⟩
  rw [parseJNat.eq_def]
  rw [hcons]
  simp only [List.cons_append]
  rw [if_pos (hall c0 (by simp [hcons]))]
  rw [show (c0 :: (cs0 ++ rest)) = (c0 :: cs0) ++ rest from rfl, ← hcons]
  rw [parseNatAux_natDigits n 0 rest]
  simp only [Nat.zero_mul, Nat.zero_add]
  cases rest with
  | nil => rfl
  | cons c cs =>
      rw [parseNatAux, if_neg (by simp [hrest c cs rfl])]

/-- Consume an expected literal character sequence. -/
def expectChars : List Char → List Char → Option (List Char)
  | [], rest => some rest
  | c :: cs, d :: ds => if c = d then expectChars cs ds else none
  | _ :: _, [] => none

lemma expectChars_append (pre rest : List Char) :
    expectChars pre (pre ++ rest) = some rest := by
  induction pre with
  | nil => rfl
  | cons c cs ih => simp [expectChars, ih]

/-- Encoded object key followed by the colon. -/
def keyColon (k : String) : List Char := encString k ++ [':']

/-- `JSON.stringify` rendering of a `GoldenResult` (field order as the
object literal in the response schema / parse result). -/
def encGolden (g : GoldenResult) : List Char :=
  ('\x7b' :: keyColon "originalTranslation") ++ encString g.originalTranslation ++
  (',' :: keyColon "goldenPrompt") ++ encString g.goldenPrompt ++
  (',' :: keyColon "category") ++ encString g.category ++
  (',' :: keyColon "reasoning") ++ encString g.reasoning ++ ['\x7d']

/-- Parse a `GoldenResult` object (in the order `stringify` emits). -/
def parseGolden (l : List Char) : Option (GoldenResult × List Char) := do
  let l ← expectChars ('\x7b' :: keyColon "originalTranslation") l
  let (ot, l) ← parseJString l
  let l ← expectChars (',' :: keyColon "goldenPrompt") l
  let (gp, l) ← parseJString l
  let l ← expectChars (',' :: keyColon "category") l
  let (cat, l) ← parseJString l
  let l ← expectChars (',' :: keyColon "reasoning") l
  let (rs, l) ← parseJString l
  let l ← expectChars ['\x7d'] l
  some (⟨ot, gp, cat, rs⟩, l)

lemma expectChars_cons (c : Char) (cs l : List Char) :
    expectChars (c :: cs) (c :: l) = expectChars cs l := by
  simp [expectChars]

lemma parseGolden_enc (g : GoldenResult) (rest : List Char) :
    parseGolden (encGolden g ++ rest) = some (g, rest) := by
  obtain ⟨ot, gp, cat, rs⟩ := g
  simp only [encGolden, List.cons_append, List.nil_append, List.append_assoc]
  simp only [parseGolden, Option.bind_eq_bind, expectChars_cons,
    expectChars_append, Option.some_bind, parseJString_enc, expectChars,
    if_true, List.append_eq, List.nil_append]

/-- `JSON.stringify` rendering of one `HistoryItem`. -/
def encItem (it : HistoryItem) : List Char :=
  ('\x7b' :: keyColon "id") ++ encString it.id ++
  (',' :: keyColon "originalInput") ++ encString it.originalInput ++
  (',' :: keyColon "result") ++ encGolden it.result ++
  (',' :: keyColon "timestamp") ++ natDigits it.timestamp ++ ['\x7d']

/-- Parse one `HistoryItem` object. -/
def parseItem (l : List Char) : Option (HistoryItem × List Char) := do
  let l ← expectChars ('\x7b' :: keyColon "id") l
  let (i, l) ← parseJString l
  let l ← expectChars (',' :: keyColon "originalInput") l
  let (oi, l) ← parseJString l
  let l ← expectChars (',' :: keyColon "result") l
  let (g, l) ← parseGolden l
  let l ← expectChars (',' :: keyColon "timestamp") l
  let (ts, l) ← parseJNat l
  let l ← expectChars ['\x7d'] l
  some (⟨i, oi, g, ts⟩, l)

lemma parseItem_enc (it : HistoryItem) (rest : List Char) :
    parseItem (encItem it ++ rest) = some (it, rest) := by
  obtain ⟨i, oi, g, ts⟩ := it
  simp only [encItem, List.cons_append, List.nil_append, List.append_assoc]
  simp only [parseItem, Option.bind_eq_bind, expectChars_cons,
    expectChars_append, Option.some_bind, parseJString_enc, parseGolden_enc,
    expectChars, if_true, List.append_eq, List.nil_append]
  rw [parseJNat_natDigits ts ('\x7d' :: rest) (by intro c cs h; cases h; rfl)]
  simp [expectChars]

/-- Comma-separated item encodings (the body of the JSON array). -/
def encItems : List HistoryItem → List Char
  | [] => []
  | [x] => encItem x
  | x :: y :: r => encItem x ++ ',' :: encItems (y :: r)

/-- Parse comma-separated items; the fuel bounds the item count (the
top-level caller passes the input length, which always suffices). -/
def parseItemsFuel : ℕ → List Char → Option (List HistoryItem × List Char)
  | 0, _ => none
  | fuel + 1, l => do
      let (it, l2) ← parseItem l
      match l2 with
      | ',' :: l3 => (fun p => (it :: p.1, p.2)) <$> parseItemsFuel fuel l3
      | _ => some ([it], l2)

lemma parseItemsFuel_enc (l : List HistoryItem) :
    ∀ fuel, l ≠ [] → l.length ≤ fuel →
      parseItemsFuel fuel (encItems l ++ [']']) = some (l, [']']) := by
  induction l with
  | nil => intro fuel h; exact absurd rfl h
  | cons x r ih =>
      intro fuel _ hlen
      obtain ⟨f, rfl⟩ : ∃ f, fuel = f + 1 := by
        cases fuel with
        | zero => simp at hlen
        | succ f => exact ⟨f, rfl⟩
      cases r with
      | nil =>
          simp only [encItems, parseItemsFuel, Option.bind_eq_bind,
            parseItem_enc, Option.some_bind]
          rfl
      | cons y r2 =>
          simp only [encItems, List.append_assoc, List.cons_append]
          simp only [parseItemsFuel, Option.bind_eq_bind, parseItem_enc,
            Option.some_bind]
          rw [ih f (by simp) (by simp at hlen ⊢; omega)]
          rfl

/-- Full `JSON.stringify` of the history collection. -/
def stringifyHistory (l : List HistoryItem) : String :=
  String.mk ('[' :: (encItems l ++ [']']))

/-- Full `JSON.parse` (model) of a stored history string. -/
def parseHistory (s : String) : Option (List HistoryItem) :=
  match s.data with
  | '[' :: rest =>
      if rest = [']'] then some []
      else
        match parseItemsFuel rest.length rest with
        | some (items, l2) => if l2 = [']'] then some items else none
        | none => none
  | _ => none

lemma encItem_ne_nil (it : HistoryItem) : encItem it ≠ [] := by
  simp [encItem, keyColon]

lemma encItems_length_ge (l : List HistoryItem) : l.length ≤ (encItems l).length := by
  induction l using encItems.induct with
  | case1 => simp [encItems]
  | case2 x =>
      have := encItem_ne_nil x
      simp only [encItems, List.length_singleton]
      cases h : encItem x with
      | nil => exact absurd h this
      | cons a b => simp [h]
  | case3 x y r ih =>
      have := encItem_ne_nil x
      simp only [encItems, List.length_append, List.length_cons]
      cases h : encItem x with
      | nil => exact absurd h this
      | cons a b =>
          simp only [List.length_cons] at ih ⊢
          simp [h]
          omega

lemma encItems_head_brace (l : List HistoryItem) (hl : l ≠ []) :
    ∃ t, encItems l = '\x7b' :: t := by
  cases l with
  | nil => exact absurd rfl hl
  | cons x r =>
      cases r with
      | nil => exact ⟨_, rfl⟩
      | cons y r2 => exact ⟨_, rfl⟩

/-- History round-trip: parsing the stringified collection returns it. -/
lemma parseHistory_stringify (l : List HistoryItem) :
    parseHistory (stringifyHistory l) = some l := by
  cases l with
  | nil => rfl
  | cons x r =>
      show parseHistory (String.mk ('[' :: (encItems (x :: r) ++ [']']))) = _
      rw [parseHistory.eq_def]
      simp only
      obtain ⟨t, ht⟩ := encItems_head_brace (x :: r) (by simp)
      have hne : ¬(encItems (x :: r) ++ [']'] = [']']) := by
        rw [ht]
        simp
      rw [if_neg hne]
      have hfuel : (x :: r).length ≤ (encItems (x :: r) ++ [']']).length := by
        have := encItems_length_ge (x :: r)
        simp only [List.length_append, List.length_singleton]
        omega
      rw [parseItemsFuel_enc (x :: r) _ (by simp) hfuel]
      simp

/-- The persistence key used by both effects. -/
def suvarnaKey : String := "suvarna-history"

/-- The save effect (src/App.tsx 54–56): rewrite the full serialized
collection under the single key; `localStorage` is a key-to-string map. -/
def saveHistory (l : List HistoryItem) (store : String → Option String) :
    String → Option String :=
  fun k => if k = suvarnaKey then some (stringifyHistory l) else store k

/-- The load effect (src/App.tsx 43–52): read the key and parse it; on a
missing key or a parse failure the history stays empty. -/
def loadHistory (store : String → Option String) : List HistoryItem :=
  match store suvarnaKey with
  | none => []
  | some s =>
      match parseHistory s with
      | some items => items
      | none => []

/-- C8: persisting a history collection under the key `suvarna-history`
and reloading reproduces the same collection — same ids, inputs,
four-field results and timestamps — and the write touches no other key. -/
theorem C8_history_persistence_roundtrip (l : List HistoryItem)
    (store : String → Option String) (k : String) (hk : k ≠ suvarnaKey) :
    loadHistory (saveHistory l store) = l ∧
    saveHistory l store k = store k := by
  constructor
  · unfold loadHistory saveHistory
    rw [if_pos rfl]
    simp only [parseHistory_stringify]
  · unfold saveHistory
    rw [if_neg hk]

/-- C8 witness: a concrete two-item collection (with characters needing
JSON escaping in its strings) round-trips through an empty store, and an
unrelated key is untouched. -/
theorem C8_history_persistence_roundtrip_witness :
    let g : GoldenResult :=
      ⟨"a \"bird\"", "line\nbreak \\ slash", "Image Generation", "r"⟩
    let l : List HistoryItem := [⟨"10", "in1", g, 10⟩, ⟨"20", "in2", g, 20⟩]
    (("other-key" : String) ≠ suvarnaKey) ∧
    (loadHistory (saveHistory l (fun _ => none)) = l ∧
      saveHistory l (fun _ => none) "other-key" = none) :=
  ⟨by decide, C8_history_persistence_roundtrip _ _ "other-key" (by decide)⟩

/-! ## Chat (`sendChatMessage`, services; `handleSend`,
src/components/ChatBot.tsx 21–56)

`sendChatMessage` wraps the chat API call in try/catch and rethrows
`new Error(error.message)` — the failure message verbatim.  `handleSend`
appends the user message, clears the input, sets loading, and awaits the
call; its catch block only does `console.error("Chat error", error)` —
nothing is appended to the visible message list and no alert is shown —
and the finally block clears the loading flag. -/

/-- Message roles (types.ts `ChatMessage.role`). -/
inductive ChatRole
  | user
  | model
deriving DecidableEq, Repr

/-- A chat message (types.ts). -/
structure ChatMessage where
  id : String
  role : ChatRole
  text : String
  timestamp : ℕ
deriving DecidableEq, Repr

/-- An error thrown by the chat API, carrying its message. -/
structure ApiError where
  message : String
deriving DecidableEq, Repr

/-- `sendChatMessage` (services/geminiService.ts): forward the reply text
on success; on failure rethrow the error message verbatim. -/
def sendChatMessage (outcome : Except ApiError (Option String)) :
    Except String (Option String) :=
  match outcome with
  | .ok t => .ok t
  | .error e => .error e.message

/-- ChatBot component state: the input box, the visible message list, the
loading flag, and the console error log (not user-visible). -/
structure ChatState where
  input : String
  messages : List ChatMessage
  isLoading : Bool
  consoleErrors : List String
deriving DecidableEq, Repr

/-- The fallback reply text applied to the awaited response text
(empty string and absent text are both falsy). -/
def chatFallback (t : Option String) : String :=
  match t with
  | some s => if s = "" then "I couldn\x27t generate a response." else s
  | none => "I couldn\x27t generate a response."

/-- `handleSend` (ChatBot.tsx), with the chat API outcome passed in and
`Date.now()` as `now`. -/
def handleSend (now : ℕ) (outcome : Except ApiError (Option String))
    (st : ChatState) : ChatState :=
  if jsTrim st.input = "" ∨ st.isLoading then st
  else
    let userMsg : ChatMessage :=
      { id := toString now, role := .user, text := st.input, timestamp := now }
    let st1 : ChatState :=
      { st with
          messages := st.messages ++ [userMsg],
          input := "",
          isLoading := true }
    match sendChatMessage outcome with
    | .ok t =>
        let botMsg : ChatMessage :=
          { id := toString (now + 1), role := .model, text := chatFallback t,
            timestamp := now }
        { st1 with messages := st1.messages ++ [botMsg], isLoading := false }
    | .error e =>
        { st1 with consoleErrors := st1.consoleErrors ++ [e], isLoading := false }

/-- C9 fails as stated: at a concrete failing send ("boom"), the visible
message list gains only the message of the user — the failure text reaches
the console log, not the user. -/
theorem C9_counterexample_failure_not_shown :
    (handleSend 1 (.error ⟨"boom"⟩)
        { input := "hello", messages := [], isLoading := false,
          consoleErrors := [] }).messages =
      [{ id := "1", role := .user, text := "hello", timestamp := 1 }] ∧
    (handleSend 1 (.error ⟨"boom"⟩)
        { input := "hello", messages := [], isLoading := false,
          consoleErrors := [] }).consoleErrors = ["boom"] := by
  constructor <;> rfl

/-- C9 amended: when a chat send fails, the service call rethrows the
failure message verbatim to the UI handler, but the handler only logs it
to the console and clears the loading flag; the visible message list
gains only the message the user sent, so nothing is surfaced to the user. -/
theorem C9_chat_failure_logged_not_surfaced (now : ℕ) (st : ChatState)
    (e : ApiError) (hne : jsTrim st.input ≠ "") (hnl : st.isLoading = false) :
    sendChatMessage (.error e) = .error e.message ∧
    (handleSend now (.error e) st).messages =
      st.messages ++
        [{ id := toString now, role := .user, text := st.input,
           timestamp := now }] ∧
    (handleSend now (.error e) st).consoleErrors =
      st.consoleErrors ++ [e.message] ∧
    (handleSend now (.error e) st).isLoading = false := by
  refine ⟨rfl, ?_, ?_, ?_⟩ <;>
    simp [handleSend, hne, hnl, sendChatMessage]

/-- C9 witness: the amended behaviour at a concrete failing send. -/
theorem C9_chat_failure_logged_not_surfaced_witness :
    let st : ChatState :=
      { input := "hi", messages := [], isLoading := false, consoleErrors := [] }
    (jsTrim "hi" ≠ "" ∧ (false : Bool) = false) ∧
    (sendChatMessage (.error ⟨"oops"⟩) = .error ("oops" : String) ∧
      (handleSend 3 (.error ⟨"oops"⟩) st).messages =
        st.messages ++
          [{ id := toString 3, role := .user, text := "hi", timestamp := 3 }] ∧
      (handleSend 3 (.error ⟨"oops"⟩) st).consoleErrors =
        st.consoleErrors ++ ["oops"] ∧
      (handleSend 3 (.error ⟨"oops"⟩) st).isLoading = false) :=
  ⟨⟨by decide, rfl⟩, C9_chat_failure_logged_not_surfaced 3 _ ⟨"oops"⟩ (by decide) rfl⟩

/-! ## Prompt enhancement (`handleEnhance`, GoldenCard component)

`handleEnhance` appends a canned snippet unless the prompt already ends
with it: `if (prev.endsWith(textToAdd)) return prev; return prev + textToAdd`.
The JavaScript `endsWith` suffix test is modelled as a suffix check on the
character lists. -/

/-- Model of `String.prototype.endsWith`: suffix test on characters. -/
def jsEndsWith (s suffix : String) : Bool :=
  List.isSuffixOf suffix.data s.data

/-- `handleEnhance` (GoldenCard.tsx): skip the append when the prompt
already ends with the snippet. -/
def handleEnhance (prev textToAdd : String) : String :=
  if jsEndsWith prev textToAdd then prev else prev ++ textToAdd

/-- C10: appending an enhancement snippet is idempotent at the boundary —
if the prompt already ends with the snippet the prompt is unchanged, and
applying the same snippet twice equals applying it once. -/
theorem C10_enhance_idempotent (p t : String) :
    (jsEndsWith p t = true → handleEnhance p t = p) ∧
    handleEnhance (handleEnhance p t) t = handleEnhance p t := by
  constructor
  · intro h
    simp [handleEnhance, h]
  · by_cases h : jsEndsWith p t = true
    · simp [handleEnhance, h]
    · have h1 : handleEnhance p t = p ++ t := by
        simp [handleEnhance, h]
      rw [h1]
      have h2 : jsEndsWith (p ++ t) t = true := by
        unfold jsEndsWith
        rw [List.isSuffixOf_iff_suffix, String.data_append]
        exact List.suffix_append _ _
      simp [handleEnhance, h2]

/-- C10 witness: the boundary case and double application at a concrete
prompt and snippet. -/
theorem C10_enhance_idempotent_witness :
    (jsEndsWith "a cat, 4K" ", 4K" = true → handleEnhance "a cat, 4K" ", 4K" = "a cat, 4K") ∧
    handleEnhance (handleEnhance "a cat, 4K" ", 4K") ", 4K" =
      handleEnhance "a cat, 4K" ", 4K" :=
  C10_enhance_idempotent "a cat, 4K" ", 4K"
